import Mathlib

/-!
Shallow embedding of the Takarazuka link-finder frontend (`src/src/App.tsx`,
`src/unnamed/part_000`) together with a spec-level model of the candidate
generation / probing / classification core described in the design document.

JavaScript numbers that the UI handlers feed into requests are small integers
(sequence bounds, years); they are embedded as `Int`.  The rational arithmetic
of the scan-progress computation is embedded over `ℚ` with JS `Math.round`
modelled as `⌊x + 1/2⌋`.
-/

/-- Character class of JS whitespace as used by `String.prototype.trim` and
the `\s` regex class, restricted to the code points that can actually occur
in this application's inputs (ASCII whitespace, NBSP, BOM). -/
def isJsSpace (c : Char) : Bool :=
  c.toNat = 32 || c.toNat = 9 || c.toNat = 10 || c.toNat = 13 ||
  c.toNat = 11 || c.toNat = 12 || c.toNat = 0xa0 || c.toNat = 0xfeff

/-- Both-ends whitespace strip on a character list. -/
def trimChars (l : List Char) : List Char :=
  ((l.dropWhile isJsSpace).reverse.dropWhile isJsSpace).reverse

/-- Embedding of JS `String.prototype.trim`. -/
def jsTrim (s : String) : String :=
  String.mk (trimChars s.data)

/-- Embedding of JS `s.padStart(2, '0')`: left-pad with zeroes to a *minimum*
width of two characters (a longer string is returned unchanged). -/
def padTwo (s : String) : String :=
  String.mk (List.replicate (2 - s.length) '0') ++ s

/-- Embedding of `buildImageUrl` from `App.tsx` lines 70-73: the item-image locator built
from a product code and a sequence index. -/
def buildImageUrl (code : String) (index : Nat) : String :=
  "https://shop.tca-pictures.net/shop/itemimages/" ++ code ++ "_" ++
    padTwo (Nat.repr index) ++ ".jpg"

/-- A GET request as assembled by `apiGet` / `URL.searchParams`: a path and an
ordered list of query parameters (key, value), duplicates allowed. -/
structure ApiRequest where
  path : String
  params : List (String × String)
deriving DecidableEq

/-- Embedding of `handleBroSearch` from `App.tsx` lines 174-195, restricted to the request
it issues: `none` when the handler returns early (blank steel-photo code
stem), otherwise the `/api/bro` request.  The range bounds are forwarded
unchecked. -/
def handleBroSearch (broPfx : String) (mn mx : Int) : Option ApiRequest :=
  if jsTrim broPfx = "" then none
  else some
    { path := "/api/bro"
    , params := [("prefix", jsTrim broPfx), ("ss_min", toString mn),
                 ("ss_max", toString mx)] }

/-- The request issued by `handleProbeSearch` (`App.tsx` lines 224-249):
`none` on either early return (blank code stem, or `probeMax < probeMin`). -/
def probeRequest (p : String) (mn mx : Int) : Option ApiRequest :=
  if jsTrim p = "" then none
  else if mx < mn then none
  else some
    { path := "/api/code_probe"
    , params := [("prefix", jsTrim p), ("ss_min", toString mn),
                 ("ss_max", toString mx)] }

/-- One row of the `/api/code_probe` response (`CodeProbeRow` in `App.tsx`). -/
structure CodeProbeRow where
  code : String
  page_ok : Bool
  img_ok : Bool
  page_url : String
  img_url : String
deriving DecidableEq

/-- The component state touched by `handleProbeSearch`. -/
structure ProbeState where
  probeLoading : Bool
  probeLastRange : Option (Int × Int)
  probeResults : List CodeProbeRow
deriving DecidableEq

/-- Embedding of `handleProbeSearch` as a state transition.  On either early return the
state is left untouched and no request is issued; on the success path the
handler records the probed range, stores the response rows, and ends with
`probeLoading = false` (set true before the fetch, reset in `finally`).
`resp` stands for the parsed `results` field of a successful response. -/
def handleProbeSearch (s : ProbeState) (p : String) (mn mx : Int)
    (resp : List CodeProbeRow) : ProbeState × Option ApiRequest :=
  match probeRequest p mn mx with
  | none => (s, none)
  | some r =>
    ({ probeLoading := false, probeLastRange := some (mn, mx),
       probeResults := resp }, some r)

/-- Embedding of JS `s.split(sep)` for a single-character separator: the
(possibly empty) fields between separator occurrences; the empty string
yields one empty field, exactly as in JS. -/
def splitChar (sep : Char) : List Char → List (List Char)
  | [] => [[]]
  | c :: cs =>
    if c = sep then [] :: splitChar sep cs
    else
      match splitChar sep cs with
      | f :: rest => (c :: f) :: rest
      | [] => [[c]]

/-- The line-splitting step of `handleBulkSearch` (`App.tsx` lines 199-202):
split the textarea content on newlines, trim each line, drop the lines that
become empty. -/
def bulkTokens (input : String) : List String :=
  (((splitChar '\n' input.data).map String.mk).map jsTrim).filter
    (fun t => t ≠ "")

/-- Embedding of `handleBulkSearch` from `App.tsx` lines 198-221, restricted to the request
it issues: `none` when no non-empty line remains, otherwise the
`/api/program` request with `year` once and one repeated `q` per token (the
order `year` before `q` follows `Object.entries` insertion order in
`apiGet`). -/
def handleBulkSearch (bulkNames : String) (bulkYear : Int) : Option ApiRequest :=
  let lines := bulkTokens bulkNames
  if lines = [] then none
  else some
    { path := "/api/program"
    , params := ("year", toString bulkYear) :: lines.map (fun t => ("q", t)) }

/-- The denominator of the scan progress: `max - min + 1 || 1` in JS, i.e. the
range size with `0` (falsy) replaced by `1`. -/
def progressDenom (mn mx : Int) : Int :=
  if mx - mn + 1 = 0 then 1 else mx - mn + 1

/-- JS `Math.round` on an exact rational: round half toward positive
infinity. -/
def jsRound (q : ℚ) : Int :=
  ⌊q + 1/2⌋

/-- Embedding of `steelProgress` / `probeProgress` from `App.tsx` lines 287-306 (the two
expressions are textually identical up to the state they read): `0` with no
recorded range or an inverted one, otherwise
`Math.min(100, Math.round((results.length / (max - min + 1 || 1)) * 100))`. -/
def scanProgress (lastRange : Option (Int × Int)) (nres : Nat) : Int :=
  match lastRange with
  | none => 0
  | some (mn, mx) =>
    if mn ≤ mx then
      min 100 (jsRound ((nres : ℚ) / (progressDenom mn mx : ℚ) * 100))
    else 0

/-- One attempt of the regex `/\/g\/g(\d+)\//` at the current position: the
literal `/g/g`, then a maximal non-empty ASCII digit run (greedy `\d+` cannot
backtrack here, since the required closing `/` is not a digit), then `/`.
Returns the captured digit run. -/
def matchHere (l : List Char) : Option (List Char) :=
  match l with
  | a :: b :: c :: d :: rest =>
    if a = '/' ∧ b = 'g' ∧ c = '/' ∧ d = 'g' then
      if (rest.takeWhile Char.isDigit) = [] then none
      else
        match rest.drop (rest.takeWhile Char.isDigit).length with
        | '/' :: _ => some (rest.takeWhile Char.isDigit)
        | _ => none
    else none
  | _ => none

/-- Leftmost match of `/\/g\/g(\d+)\//`, as `String.prototype.match` finds
it: try every start position from the left. -/
def scanGG : List Char → Option String
  | [] => none
  | c :: cs =>
    match matchHere (c :: cs) with
    | some ds => some (String.mk ds)
    | none => scanGG cs

/-- Embedding of `extractCodeFromUrl` from `App.tsx` lines 63-67: `null` for a missing URL
or one without a `/g/g<digits>/` segment, otherwise the digit run of the
first such segment. -/
def extractCodeFromUrl (url : Option String) : Option String :=
  url.bind (fun s => scanGG s.data)

/-- The code selection of `renderImageCell` (`App.tsx` line 252):
`row.code && row.code.length > 0 ? row.code : extractCodeFromUrl(row.url)`. -/
def chosenCode (rowCode rowUrl : Option String) : Option String :=
  match rowCode with
  | some c => if 0 < c.length then some c else extractCodeFromUrl rowUrl
  | none => extractCodeFromUrl rowUrl

/-- Embedding of the placeholder decision: `renderImageCell` renders the "no image" placeholder exactly when the
chosen code is falsy (`null` or the empty string). -/
def showPlaceholder (rowCode rowUrl : Option String) : Bool :=
  match chosenCode rowCode rowUrl with
  | none => true
  | some c => c.length = 0

/-- Embedding of `extraPrefixArr` from `src/unnamed/part_000` lines 119-124: split the
comma-separated input on the regex `[,\s]+`, trim each field, drop the empty
ones.  A JS regex split emits the (possibly empty) fields between separator
runs, with a leading/trailing empty field when the string starts/ends with a
separator, and `''.split` yields `['']`. -/
def splitFields (isSep : Char → Bool) : List Char → List (List Char)
  | [] => [[]]
  | c :: cs =>
    if isSep c then
      match cs with
      | d :: _ =>
        if isSep d then splitFields isSep cs else [] :: splitFields isSep cs
      | [] => [] :: splitFields isSep cs
    else
      match splitFields isSep cs with
      | f :: rest => (c :: f) :: rest
      | [] => [[c]]

/-- Separator class of the regex `[,\s]+`. -/
def isSepChar (c : Char) : Bool :=
  c = ',' || isJsSpace c

/-- The token list sent as repeated `extra_prefix` parameters. -/
def extraPfxArr (input : String) : List String :=
  (((splitFields isSepChar input.data).map String.mk).map jsTrim).filter
    (fun t => t ≠ "")

/-- Embedding of `loadImagesForCard` from `src/unnamed/part_000` lines 147-168, restricted
to the `/api/card_images` request it issues: `card_url`, `max_images` and
`start_n` are set once, then one `extra_prefix` per token, in order. -/
def loadImagesForCard (cardUrl : String) (maxImages startN : Int)
    (extraPfxInput : String) : ApiRequest :=
  { path := "/api/card_images"
  , params := [("card_url", cardUrl), ("max_images", toString maxImages),
               ("start_n", toString startN)] ++
      (extraPfxArr extraPfxInput).map (fun p => ("extra_prefix", p)) }

/-! Spec-modelled core

The candidate generation / probing / classification engine described by the
design document lives in the backend behind `API_BASE`, which is not part of
the files under `src/`; the definitions below are modelled from the spec
(sections 3-4 and 8) and are marked as such. -/

/-- Modelled from the spec: the closed set of asset-naming convention kinds
(spec section 3, `Convention.kind`). -/
inductive ConventionKind
  | direct
  | sequence
  | dateShiftedSequence
deriving DecidableEq

/-- Modelled from the spec: the merge tier a candidate came from (spec
section 4.2 priority order: direct, auto-derived, date-shifted,
user-supplied). -/
inductive Tier
  | direct
  | auto
  | shifted
  | extra
deriving DecidableEq

/-- Modelled from the spec: a seed item handed to the core by the excluded
listing-search collaborator (spec section 3). -/
structure SeedItem where
  id : String
  sourceUrl : String
  title : Option String
  observedDate : Option String
deriving DecidableEq

/-- Modelled from the spec: a guessed, unverified asset locator with the
convention and parameters that produced it (spec section 3, `Candidate`). -/
structure Candidate where
  locator : String
  kind : ConventionKind
  sourceSeedId : String
  sequenceIndex : Option Int
  dateOffsetDays : Option Int
  pfxValue : Option String
  tier : Tier
deriving DecidableEq

/-- Modelled from the spec: per-call generation options (spec section 4.2):
sequence index range, date offsets to try, user-supplied extra stems, and
the max-candidate cap. -/
structure GenOptions where
  seqMin : Int
  seqMax : Int
  dateOffsets : List Int
  extraPfxs : List String
  maxCandidates : Nat
deriving DecidableEq

/-- Modelled from the spec: `sequence(prefix, index) -> locator` of the
Convention Registry (spec section 4.1), following the storefront's
item-image convention also used by `buildImageUrl`. -/
def sequenceLocator (pfx : String) (idx : Int) : String :=
  "https://shop.tca-pictures.net/shop/itemimages/" ++ pfx ++ "_" ++
    padTwo (toString idx) ++ ".jpg"

/-- Modelled from the spec: a date-shifted variant stem derived from a base
stem by a day offset (spec section 4.1, `derivePrefix`). -/
def shiftedPfx (base : String) (off : Int) : String :=
  base ++ "@" ++ toString off

/-- Modelled from the spec: one sequence tier — every index of `[mn, mx]`
under one stem, ascending (spec sections 4.2 and 8). -/
def genSequenceTier (t : Tier) (k : ConventionKind) (seedId pfx : String)
    (off : Option Int) (mn mx : Int) : List Candidate :=
  (List.range (mx - mn + 1).toNat).map (fun (i : Nat) =>
    { locator := sequenceLocator pfx (mn + (i : Int))
    , kind := k
    , sourceSeedId := seedId
    , sequenceIndex := some (mn + (i : Int))
    , dateOffsetDays := off
    , pfxValue := some pfx
    , tier := t })

/-- First-occurrence deduplication of a list under a key function, carrying
the set of keys already seen. -/
def dedupByAux {α β : Type} (key : α → β) [DecidableEq β] (seen : List β) :
    List α → List α
  | [] => []
  | x :: xs =>
    if key x ∈ seen then dedupByAux key seen xs
    else x :: dedupByAux key (key x :: seen) xs

/-- First-occurrence deduplication of a list under a key function. -/
def dedupBy {α β : Type} (key : α → β) [DecidableEq β] (l : List α) : List α :=
  dedupByAux key [] l

/-- Modelled from the spec: `generate(seed, options) -> Candidate[]` (spec
section 4.2): merge the four tiers in priority order, deduplicate by
locator, truncate to the max-candidate cap. -/
def generate (seed : SeedItem) (opts : GenOptions) : List Candidate :=
  let directTier : List Candidate :=
    [ { locator := buildImageUrl seed.id 1
      , kind := ConventionKind.direct
      , sourceSeedId := seed.id
      , sequenceIndex := none
      , dateOffsetDays := none
      , pfxValue := none
      , tier := Tier.direct } ]
  let autoTier := genSequenceTier Tier.auto ConventionKind.sequence seed.id
    seed.id (some 0) opts.seqMin opts.seqMax
  let shiftedTiers := opts.dateOffsets.flatMap (fun off =>
    genSequenceTier Tier.shifted ConventionKind.dateShiftedSequence seed.id
      (shiftedPfx seed.id off) (some off) opts.seqMin opts.seqMax)
  let extraTiers := opts.extraPfxs.flatMap (fun p =>
    genSequenceTier Tier.extra ConventionKind.sequence seed.id p none
      opts.seqMin opts.seqMax)
  (dedupBy (fun cd => cd.locator)
    (directTier ++ autoTier ++ shiftedTiers ++ extraTiers)).take
    opts.maxCandidates

/-- Modelled from the spec: the outcome of one existence check (spec
section 4.3). -/
inductive Outcome
  | found
  | notFound
  | error
deriving DecidableEq

/-- The slice of the candidate queue handled by worker `i` of `c`: the
elements at positions congruent to `i` modulo `c`. -/
def workerSlice {α : Type} (c i : Nat) (l : List α) : List α :=
  ((l.enum).filter (fun p => p.1 % c == i)).map Prod.snd

/-- Completion order of a `c`-worker pool under uniform latency: worker 0's
results first, then worker 1's, and so on. -/
def roundRobin {α : Type} (c : Nat) (l : List α) : List α :=
  (List.range c).foldr (fun i acc => workerSlice c i l ++ acc) []

/-- Modelled from the spec: the order in which probe results complete under
concurrency `c` (spec section 4.3 guarantees nothing about this order). -/
def schedule {α : Type} (c : Nat) (l : List α) : List α :=
  if c ≤ 1 then l else roundRobin c l

/-- Modelled from the spec: `probe` (spec section 4.3) with an unlimited
deadline — the verified hits, in completion order, of the candidates whose
injected existence check returns `found` (timeouts and transport errors
count as not found for catalog purposes). -/
def probe (cands : List Candidate) (ex : String → Outcome) (c : Nat) :
    List Candidate :=
  (schedule c cands).filter (fun cd => ex cd.locator == Outcome.found)

/-- Modelled from the spec: one sequence group of a per-seed catalog (spec
section 3). -/
structure SequenceGroup where
  pfxValue : String
  dateOffsetDays : Int
  hits : List Candidate
deriving DecidableEq

/-- Modelled from the spec: the per-seed catalog (spec sections 3 and 4.4). -/
structure PerSeedCatalog where
  seedId : String
  direct : List Candidate
  sequences : List SequenceGroup
  unknownPfxHits : List Candidate
deriving DecidableEq

/-- Modelled from the spec: the session output (spec sections 3 and 4.5). -/
structure Catalog where
  perSeed : List PerSeedCatalog
  mergedOrder : List String
deriving DecidableEq

/-- Modelled from the spec: `classify(hits, seed) -> PerSeedCatalog` (spec
section 4.4).  The classifier re-sorts the hits into the candidate list's
stable generation order (ascending sequence index inside each tier, tiers in
priority order) by filtering the canonical candidate list against the hit
set, then buckets by convention kind and stem; hits from user-supplied stems
are routed to `unknownPfxHits`. -/
def classify (seed : SeedItem) (cands hits : List Candidate) :
    PerSeedCatalog :=
  let verified := cands.filter (fun cd => decide (cd ∈ hits))
  { seedId := seed.id
  , direct := verified.filter (fun cd => cd.kind == ConventionKind.direct)
  , sequences :=
      (dedupBy id (verified.filterMap (fun cd =>
        if cd.kind == ConventionKind.direct then none else cd.pfxValue))).map
        (fun p =>
          { pfxValue := p
          , dateOffsetDays :=
              (((verified.find? (fun cd => cd.pfxValue == some p)).bind
                (fun cd => cd.dateOffsetDays)).getD 0)
          , hits := verified.filter (fun cd =>
              cd.pfxValue == some p && !(cd.kind == ConventionKind.direct)) })
  , unknownPfxHits := verified.filter (fun cd => cd.tier == Tier.extra) }

/-- All hit candidates of a per-seed catalog, in presentation order. -/
def catalogHits (c : PerSeedCatalog) : List Candidate :=
  c.direct ++ (c.sequences.map (fun g => g.hits)).flatten ++ c.unknownPfxHits

/-- Modelled from the spec: `aggregate(perSeedCatalogs) -> Catalog` (spec
section 4.5): keep the per-seed catalogs and build `mergedOrder` by
flattening all hit locators in discovery order and removing duplicates. -/
def aggregate (cats : List PerSeedCatalog) : Catalog :=
  { perSeed := cats
  , mergedOrder :=
      dedupBy id ((cats.map (fun c => (catalogHits c).map
        (fun cd => cd.locator))).flatten) }

/-- Modelled from the spec: the whole session pipeline (spec section 2) at a
given concurrency level. -/
def runPipeline (seeds : List SeedItem) (opts : GenOptions)
    (ex : String → Outcome) (c : Nat) : Catalog :=
  aggregate (seeds.map (fun s =>
    let cands := generate s opts
    classify s cands (probe cands ex c)))

/-- The values of the repeated `q` parameter of a request, in wire order
(`none` when no request is issued at all). -/
def qValues (r : Option ApiRequest) : Option (List String) :=
  r.map (fun req => (req.params.filter (fun kv => kv.1 == "q")).map Prod.snd)

/-- The values of the repeated `extra_prefix` parameter of a request, in
wire order. -/
def extraPfxValues (r : ApiRequest) : List String :=
  (r.params.filter (fun kv => kv.1 == "extra_prefix")).map Prod.snd

/-! Helper lemmas -/

/-- Keys of the deduplicated list are distinct and avoid the seen set. -/
theorem dedupByAux_key_nodup {α β : Type} (key : α → β) [DecidableEq β] :
    ∀ (l : List α) (seen : List β),
      ((dedupByAux key seen l).map key).Nodup ∧
        ∀ b ∈ (dedupByAux key seen l).map key, b ∉ seen := by
  intro l
  induction l with
  | nil => simp [dedupByAux]
  | cons x xs ih =>
    intro seen
    by_cases h : key x ∈ seen
    · simpa [dedupByAux, h] using ih seen
    · have ihx := ih (key x :: seen)
      refine ⟨?_, ?_⟩
      · simp only [dedupByAux, if_neg h, List.map_cons, List.nodup_cons]
        exact ⟨fun hmem => (ihx.2 _ hmem) (List.mem_cons_self _ _), ihx.1⟩
      · intro b hb
        simp only [dedupByAux, if_neg h, List.map_cons, List.mem_cons] at hb
        rcases hb with rfl | hb
        · exact h
        · exact fun hs => (ihx.2 b hb) (List.mem_cons_of_mem _ hs)

/-- Keys of a `dedupBy` result are distinct. -/
theorem dedupBy_key_nodup {α β : Type} (key : α → β) [DecidableEq β]
    (l : List α) : ((dedupBy key l).map key).Nodup :=
  (dedupByAux_key_nodup key l []).1

/-- A `dedupBy id` result has no duplicate entries. -/
theorem dedupBy_id_nodup {β : Type} [DecidableEq β] (l : List β) :
    (dedupBy id l).Nodup := by
  have h := dedupBy_key_nodup id l
  simpa using h

/-- Membership in an indexed fold of appended blocks. -/
theorem mem_foldr_append {α : Type} (f : Nat → List α) (x : α) :
    ∀ is : List Nat,
      x ∈ is.foldr (fun i acc => f i ++ acc) [] ↔ ∃ i ∈ is, x ∈ f i := by
  intro is
  induction is with
  | nil => simp
  | cons j js ih => simp [List.mem_append, ih]

/-- A worker slice only carries elements of the queue. -/
theorem mem_of_mem_workerSlice {α : Type} {c i : Nat} {l : List α} {x : α}
    (h : x ∈ workerSlice c i l) : x ∈ l := by
  unfold workerSlice at h
  rcases List.mem_map.mp h with ⟨p, hp, rfl⟩
  have hp' := (List.mem_filter.mp hp).1
  have hp2 : l[p.1]? = some p.2 := List.mem_enum_iff_getElem?.mp hp'
  exact List.get?_mem (by rwa [List.get?_eq_getElem?])

/-- Every queue element lands in the slice of the worker its index hashes
to. -/
theorem mem_workerSlice_of_mem {α : Type} {c : Nat} (hc : 0 < c) {l : List α}
    {x : α} (h : x ∈ l) : ∃ i < c, x ∈ workerSlice c i l := by
  rcases List.get?_of_mem h with ⟨n, hn⟩
  refine ⟨n % c, Nat.mod_lt _ hc, ?_⟩
  unfold workerSlice
  refine List.mem_map.mpr ⟨(n, x), List.mem_filter.mpr ⟨?_, ?_⟩, rfl⟩
  · exact List.mem_enum_iff_getElem?.mpr (by rwa [List.get?_eq_getElem?] at hn)
  · simp

/-- The round-robin completion order is a rearrangement: membership is
preserved. -/
theorem mem_roundRobin {α : Type} {c : Nat} (hc : 0 < c) (l : List α)
    (x : α) : x ∈ roundRobin c l ↔ x ∈ l := by
  unfold roundRobin
  rw [mem_foldr_append]
  constructor
  · rintro ⟨i, _, hx⟩
    exact mem_of_mem_workerSlice hx
  · intro hx
    rcases mem_workerSlice_of_mem hc hx with ⟨i, hi, hx'⟩
    exact ⟨i, List.mem_range.mpr hi, hx'⟩

/-- Scheduling never loses or invents candidates. -/
theorem mem_schedule {α : Type} (c : Nat) (l : List α) (x : α) :
    x ∈ schedule c l ↔ x ∈ l := by
  unfold schedule
  split
  · exact Iff.rfl
  · exact mem_roundRobin (by omega) l x

/-- A candidate is a verified hit exactly when it was probed and its
existence check succeeded, independently of the completion order. -/
theorem mem_probe (cands : List Candidate) (ex : String → Outcome) (c : Nat)
    (cd : Candidate) :
    cd ∈ probe cands ex c ↔ cd ∈ cands ∧ ex cd.locator = Outcome.found := by
  unfold probe
  rw [List.mem_filter, mem_schedule]
  simp

/-- Re-filtering the canonical candidate list against the probe's hit list
erases the completion order: the result depends only on the existence
check. -/
theorem filter_probe_indep (cands : List Candidate) (ex : String → Outcome)
    (c : Nat) :
    cands.filter (fun cd => decide (cd ∈ probe cands ex c)) =
      cands.filter (fun cd => ex cd.locator == Outcome.found) := by
  apply List.filter_congr
  intro cd hcd
  rw [Bool.eq_iff_iff]
  simp [mem_probe, hcd]

/-- Classification of the probe results does not depend on the concurrency
level. -/
theorem classify_probe_indep (seed : SeedItem) (cands : List Candidate)
    (ex : String → Outcome) (c₁ c₂ : Nat) :
    classify seed cands (probe cands ex c₁) =
      classify seed cands (probe cands ex c₂) := by
  unfold classify
  rw [filter_probe_indep cands ex c₁, filter_probe_indep cands ex c₂]

/-- A successful anchored match captures a non-empty digit run. -/
theorem matchHere_ne_nil {l : List Char} {ds : List Char}
    (h : matchHere l = some ds) : ds ≠ [] := by
  unfold matchHere at h
  split at h
  · split at h
    · split at h
      · exact absurd h (by simp)
      · split at h
        · injection h with h'
          subst h'
          assumption
        · exact absurd h (by simp)
    · exact absurd h (by simp)
  · exact absurd h (by simp)

/-- A leftmost regex match yields a non-empty captured code. -/
theorem scanGG_length_pos :
    ∀ {l : List Char} {s : String}, scanGG l = some s → 0 < s.length := by
  intro l
  induction l with
  | nil => intro s h; exact absurd h (by simp [scanGG])
  | cons c cs ih =>
    intro s h
    unfold scanGG at h
    rcases hm : matchHere (c :: cs) with _ | ds
    · rw [hm] at h
      exact ih h
    · rw [hm] at h
      injection h with h'
      subst h'
      have hne := matchHere_ne_nil hm
      have : 0 < ds.length := List.length_pos.mpr hne
      simpa [String.length] using this

/-- The extracted code is never the empty string. -/
theorem extractCodeFromUrl_ne_empty {url : Option String} {s : String}
    (h : extractCodeFromUrl url = some s) : 0 < s.length := by
  unfold extractCodeFromUrl at h
  rcases url with _ | u
  · exact absurd h (by simp)
  · exact scanGG_length_pos h

/-- For a recorded, non-inverted range the `|| 1` fallback of the progress
denominator is inert. -/
theorem progressDenom_eq {mn mx : Int} (h : mn ≤ mx) :
    progressDenom mn mx = mx - mn + 1 := by
  unfold progressDenom
  rw [if_neg (by omega)]

/-- Filtering key `"q"` out of a pure `q`-parameter block recovers the
values. -/
theorem filter_q_map (l : List String) :
    ((l.map (fun t => ("q", t))).filter (fun kv => kv.1 == "q")).map
      Prod.snd = l := by
  induction l with
  | nil => rfl
  | cons t ts ih => simp [ih]

/-- Filtering key `"extra_prefix"` out of a pure `extra_prefix`-parameter
block recovers the values. -/
theorem filter_extra_pfx_map (l : List String) :
    ((l.map (fun p => ("extra_prefix", p))).filter
      (fun kv => kv.1 == "extra_prefix")).map Prod.snd = l := by
  induction l with
  | nil => rfl
  | cons t ts ih => simp [ih]

/-! Claim theorems -/

/-- Claim C1, counterexample: the claim says every probing operation rejects
a violating bounds configuration (negative bounds or `min > max`) with no
request performed, but `handleBroSearch` issues its request for an inverted
range `[5, 2]`, and `handleProbeSearch` issues its request for the negative
range `[-5, -3]`. -/
theorem claim1_counterexample :
    (handleBroSearch "2251101300" 5 2).isSome = true ∧
      (probeRequest "6742" (-5) (-3)).isSome = true := by
  constructor
  · rfl
  · rfl

/-- Claim C1 (amended): `handleProbeSearch` rejects exactly the blank-stem
and `max < min` configurations with no request performed, while
`handleBroSearch` performs no bounds validation at all — it issues its
request whenever the stem is non-blank; neither handler checks the bounds
for non-negativity. -/
theorem claim1_amended_validation : ∀ (p : String) (mn mx : Int),
    (probeRequest p mn mx = none ↔ (jsTrim p = "" ∨ mx < mn)) ∧
      (handleBroSearch p mn mx = none ↔ jsTrim p = "") := by
  intro p mn mx
  constructor
  · unfold probeRequest
    split_ifs with h1 h2 <;> simp_all
  · unfold handleBroSearch
    split_ifs with h1 <;> simp_all

/-- Claim C2, counterexample: the claim says the numeric suffix between the
underscore and `.jpg` always has exactly two digits, but at sequence index
100 the suffix is the three-digit `100` (JS `padStart(2, '0')` pads to a
minimum width, it does not truncate). -/
theorem claim2_counterexample :
    buildImageUrl "672176" 100 =
      "https://shop.tca-pictures.net/shop/itemimages/672176_100.jpg" ∧
      ¬("100".length = 2) := by
  constructor
  · rfl
  · decide

/-- Claim C2 (amended): `buildImageUrl code n` is the base locator followed
by `code`, an underscore, the decimal rendering of `n` zero-padded to a
minimum width of two characters, and `.jpg`; the suffix has exactly two
digits for every index in `1..99`. -/
theorem claim2_amended_padding : ∀ (code : String) (n : Nat),
    1 ≤ n → n ≤ 99 →
    buildImageUrl code n =
      "https://shop.tca-pictures.net/shop/itemimages/" ++ code ++ "_" ++
        padTwo (Nat.repr n) ++ ".jpg" ∧
      (padTwo (Nat.repr n)).length = 2 := by
  intro code n h1 h2
  refine ⟨rfl, ?_⟩
  have hall : ∀ m : Nat, m < 100 → (padTwo (Nat.repr m)).length = 2 := by
    decide
  exact hall n (by omega)

/-- Claim C2 witness: the amended statement at `code = "672176"`, `n = 7`. -/
theorem claim2_witness :
    (1 ≤ 7 ∧ 7 ≤ 99) ∧
      (buildImageUrl "672176" 7 =
        "https://shop.tca-pictures.net/shop/itemimages/" ++ "672176" ++ "_" ++
          padTwo (Nat.repr 7) ++ ".jpg" ∧
        (padTwo (Nat.repr 7)).length = 2) :=
  ⟨⟨by decide, by decide⟩, claim2_amended_padding "672176" 7 (by decide) (by decide)⟩

/-- Claim C3: for a range `[mn, mx]` with `mn ≤ mx`, a sequence tier holds
exactly `mx - mn + 1` candidates before capping, and the scan-progress
denominator for a recorded range equals `mx - mn + 1`. -/
theorem claim3_tier_count_denominator : ∀ (t : Tier) (k : ConventionKind)
    (seedId pfx : String) (off : Option Int) (mn mx : Int), mn ≤ mx →
    ((genSequenceTier t k seedId pfx off mn mx).length : Int) = mx - mn + 1 ∧
      progressDenom mn mx = mx - mn + 1 := by
  intro t k seedId pfx off mn mx h
  constructor
  · have hlen : (genSequenceTier t k seedId pfx off mn mx).length =
        (mx - mn + 1).toNat := by
      unfold genSequenceTier
      rw [List.length_map, List.length_range]
    rw [hlen]
    omega
  · exact progressDenom_eq h

/-- Claim C3 witness: a concrete auto-derived tier over `[1, 3]`. -/
theorem claim3_witness :
    (1 : Int) ≤ 3 ∧
      (((genSequenceTier Tier.auto ConventionKind.sequence "s" "p" (some 0)
        1 3).length : Int) = 3 - 1 + 1 ∧ progressDenom 1 3 = 3 - 1 + 1) :=
  ⟨by decide,
    claim3_tier_count_denominator Tier.auto ConventionKind.sequence "s" "p"
      (some 0) 1 3 (by decide)⟩

/-- Claim C4: on a configuration error (blank stem or inverted range) the
probe handler returns before touching any session state and issues no
request: the component state is returned unchanged. -/
theorem claim4_config_error_atomic : ∀ (s : ProbeState) (p : String)
    (mn mx : Int) (resp : List CodeProbeRow),
    jsTrim p = "" ∨ mx < mn →
    handleProbeSearch s p mn mx resp = (s, none) := by
  intro s p mn mx resp h
  unfold handleProbeSearch probeRequest
  rcases h with h | h
  · simp [h]
  · by_cases h2 : jsTrim p = "" <;> simp [h, h2]

/-- Claim C4 witness: an inverted range `[7, 4]` leaves a concrete state
untouched. -/
theorem claim4_witness :
    ((4 : Int) < 7 ∨ jsTrim "6742" = "" ∨ (4 : Int) < 7) ∧
      handleProbeSearch ⟨true, some (3, 9), []⟩ "6742" 7 4 [] =
        (⟨true, some (3, 9), []⟩, none) :=
  ⟨Or.inl (by decide),
    claim4_config_error_atomic ⟨true, some (3, 9), []⟩ "6742" 7 4 []
      (Or.inr (by decide))⟩

/-- Claim C5: no two candidates of a generated candidate list share a
locator, and the aggregated `mergedOrder` holds each locator at most once,
whatever the per-seed catalogs contain. -/
theorem claim5_locator_nodup : ∀ (seed : SeedItem) (opts : GenOptions)
    (cats : List PerSeedCatalog),
    ((generate seed opts).map (fun cd => cd.locator)).Nodup ∧
      (aggregate cats).mergedOrder.Nodup := by
  intro seed opts cats
  constructor
  · simp only [generate]
    rw [List.map_take]
    exact List.Nodup.sublist (List.take_sublist _ _)
      (dedupBy_key_nodup (fun cd : Candidate => cd.locator) _)
  · simp only [aggregate]
    exact dedupBy_id_nodup _

/-- Claim C6: with a fixed deterministic existence check and an unlimited
deadline, the probe-classify-aggregate pipeline returns equal catalogs at
any two concurrency levels (in particular 1 versus N), for every batch of
seeds and every repetition of the run. -/
theorem claim6_pipeline_deterministic : ∀ (seeds : List SeedItem)
    (opts : GenOptions) (ex : String → Outcome) (c₁ c₂ : Nat),
    runPipeline seeds opts ex c₁ = runPipeline seeds opts ex c₂ := by
  intro seeds opts ex c₁ c₂
  unfold runPipeline
  congr 1
  apply List.map_congr_left
  intro s _
  exact classify_probe_indep s (generate s opts) ex c₁ c₂

/-- Claim C7: the batch search splits its textarea input into one trimmed,
non-empty token per line; it issues no request when no token remains, and
otherwise its repeated `q` parameters are exactly those tokens in input
order. -/
theorem claim7_bulk_q_params : ∀ (input : String) (year : Int),
    qValues (handleBulkSearch input year) =
      if bulkTokens input = [] then none else some (bulkTokens input) := by
  intro input year
  by_cases h : bulkTokens input = []
  · simp [handleBulkSearch, qValues, h]
  · have hyq : (("year" : String) == "q") = false := by decide
    simp only [handleBulkSearch, qValues, if_neg h, Option.map_some',
      List.filter_cons, hyq, Bool.false_eq_true, if_false,
      Option.some.injEq]
    exact filter_q_map (bulkTokens input)

/-- Claim C8: the image-probe request carries one `extra_prefix` parameter
per token of the comma/whitespace-split, trimmed, non-empty token list of
the user's input, in input order, and an empty input contributes none. -/
theorem claim8_extra_pfx_params : ∀ (cardUrl : String) (mi sn : Int)
    (input : String),
    extraPfxValues (loadImagesForCard cardUrl mi sn input) =
      extraPfxArr input ∧ extraPfxArr "" = [] := by
  intro cardUrl mi sn input
  constructor
  · have h1 : (("card_url" : String) == "extra_prefix") = false := by decide
    have h2 : (("max_images" : String) == "extra_prefix") = false := by decide
    have h3 : (("start_n" : String) == "extra_prefix") = false := by decide
    simp only [extraPfxValues, loadImagesForCard, List.filter_append,
      List.filter_cons, h1, h2, h3, Bool.false_eq_true, if_false,
      List.filter_nil, List.nil_append]
    exact filter_extra_pfx_map (extraPfxArr input)
  · decide

/-- Claim C9: `extractCodeFromUrl` is a total function returning `none` on a
missing URL, and `renderImageCell` shows the no-image placeholder exactly
when the row's own code is absent or empty and no code can be extracted
from the row's URL. -/
theorem claim9_placeholder_iff : ∀ (rowCode rowUrl : Option String),
    extractCodeFromUrl none = none ∧
      (showPlaceholder rowCode rowUrl = true ↔
        ((rowCode.getD "").length = 0 ∧ extractCodeFromUrl rowUrl = none)) := by
  intro rowCode rowUrl
  refine ⟨rfl, ?_⟩
  rcases rowCode with _ | c
  · rcases h : extractCodeFromUrl rowUrl with _ | s
    · simp [showPlaceholder, chosenCode, h]
    · have hs := extractCodeFromUrl_ne_empty h
      simp [showPlaceholder, chosenCode, h]
      omega
  · rcases Nat.eq_zero_or_pos c.length with hc | hc
    · rcases h : extractCodeFromUrl rowUrl with _ | s
      · simp [showPlaceholder, chosenCode, h, hc]
      · have hs := extractCodeFromUrl_ne_empty h
        simp [showPlaceholder, chosenCode, h, hc]
        omega
    · simp [showPlaceholder, chosenCode, hc]
      omega

/-- Claim C10: the displayed scan progress always lies in `[0, 100]`; it is
`0` with no recorded range or an inverted one, and otherwise equals
`min 100 (round (100 * hits / (max - min + 1)))` with the denominator's
zero-guard inert, so the division is well-defined and the progress is
capped at 100. -/
theorem claim10_progress_bounds : ∀ (r : Option (Int × Int)) (nres : Nat),
    (0 ≤ scanProgress r nres ∧ scanProgress r nres ≤ 100) ∧
      scanProgress none nres = 0 ∧
      (∀ mn mx : Int, mx < mn → scanProgress (some (mn, mx)) nres = 0) ∧
      (∀ mn mx : Int, mn ≤ mx →
        scanProgress (some (mn, mx)) nres =
          min 100 (jsRound ((100 * (nres : ℚ)) /
            ((mx - mn + 1 : Int) : ℚ)))) := by
  intro r nres
  refine ⟨?_, rfl, ?_, ?_⟩
  · rcases r with _ | ⟨mn, mx⟩
    · simp [scanProgress]
    · simp only [scanProgress]
      split_ifs with h
      · constructor
        · apply le_min (by norm_num)
          unfold jsRound
          apply Int.le_floor.mpr
          have hd : (0 : ℚ) < ((progressDenom mn mx : Int) : ℚ) := by
            rw [progressDenom_eq h]
            exact_mod_cast (by omega : (0 : Int) < mx - mn + 1)
          have hq : (0 : ℚ) ≤ (nres : ℚ) / ((progressDenom mn mx : Int) : ℚ)
              * 100 := by positivity
          push_cast
          linarith
        · exact min_le_left _ _
      · norm_num
  · intro mn mx hlt
    simp only [scanProgress]
    rw [if_neg (by omega)]
  · intro mn mx hle
    simp only [scanProgress]
    rw [if_pos hle, progressDenom_eq hle]
    congr 2
    ring

/-- Claim C10 witness: the inverted range `[7, 4]` shows zero progress, and
the range `[1, 3]` with two hits takes the capped-round form. -/
theorem claim10_witness :
    ((4 : Int) < 7 ∧ scanProgress (some (7, 4)) 9 = 0) ∧
      ((1 : Int) ≤ 3 ∧ scanProgress (some (1, 3)) 2 =
        min 100 (jsRound ((100 * ((2 : Nat) : ℚ)) /
          ((3 - 1 + 1 : Int) : ℚ)))) :=
  ⟨⟨by decide, (claim10_progress_bounds (some (7, 4)) 9).2.2.1 7 4 (by decide)⟩,
    ⟨by decide, (claim10_progress_bounds (some (1, 3)) 2).2.2.2 1 3 (by decide)⟩⟩

example : jsTrim "  ab " = "ab" := by decide
example : jsTrim " " = "" := by decide
example : buildImageUrl "672176" 1 =
    "https://shop.tca-pictures.net/shop/itemimages/672176_01.jpg" := by decide
example : buildImageUrl "672176" 100 =
    "https://shop.tca-pictures.net/shop/itemimages/672176_100.jpg" := by decide
example : bulkTokens "a\n \nb" = ["a", "b"] := by decide
example : extractCodeFromUrl (some "https://x.net/shop/g/g672176/") =
    some "672176" := by decide
example : extractCodeFromUrl (some "https://x.net/shop/g/gabc/") = none := by
  decide
example : extractCodeFromUrl none = none := by decide
example : extraPfxArr "a1, b2  c3" = ["a1", "b2", "c3"] := by decide
example : extraPfxArr "" = [] := by decide
example : extraPfxArr " ,, " = [] := by decide
example : scanProgress (some (1, 40)) 20 = 50 := by
  norm_num [scanProgress, jsRound, progressDenom]
example : scanProgress (some (5, 2)) 7 = 0 := by
  norm_num [scanProgress]
example : scanProgress (some (1, 3)) 7 = 100 := by
  norm_num [scanProgress, jsRound, progressDenom]
example : schedule 2 ["a", "b", "c", "d"] = ["a", "c", "b", "d"] := by decide
example : schedule 1 ["a", "b", "c", "d"] = ["a", "b", "c", "d"] := by decide
